import Mathlib

/-!
Shallow embedding of `commands/uploader.go` (git-lfs upload command core):
the session dedup set (`lfs.StringSet` / `uploadContext`), classification of
candidates into locally-present and locally-missing (`prepareUpload`),
reconciliation against the server (`checkMissing`), and the upload driver
(`upload`) with its dry-run branch, materialization failure handling and
error draining.  External collaborators (local object cache, remote check
queue, `lfs.NewUploadable`, transfer-queue error reporting) are modelled as
an explicit environment of pure functions.
-/

namespace GitLfs

/-- Model of `lfs.StringSet` (a set of strings): a list with set-semantics
insertion, compared only through `Contains`. -/
structure StringSet where
  elems : List String
deriving DecidableEq, Repr

def NewStringSet : StringSet := ⟨[]⟩

def StringSet.Add (s : StringSet) (o : String) : StringSet :=
  if s.elems.contains o then s else ⟨o :: s.elems⟩

def StringSet.Contains (s : StringSet) (o : String) : Bool :=
  s.elems.contains o

/-- Model of `lfs.WrappedPointer` restricted to the fields `uploader.go`
reads: `Oid`, `Name` and `Size` (Go `int64`, modelled as `Int`). -/
structure WrappedPointer where
  Oid : String
  Name : String
  Size : Int
deriving DecidableEq, Repr

/-- Model of `uploadContext` from `uploader.go`. -/
structure uploadContext where
  DryRun : Bool
  uploadedOids : StringSet
deriving DecidableEq, Repr

def newUploadContext (dryRun : Bool) : uploadContext :=
  ⟨dryRun, NewStringSet⟩

/-- `uploadContext.SetUploaded`: adds the oid to the set of oids uploaded in
the current process. -/
def uploadContext.SetUploaded (c : uploadContext) (oid : String) : uploadContext :=
  { c with uploadedOids := c.uploadedOids.Add oid }

/-- `uploadContext.HasUploaded`: membership test in the session dedup set. -/
def uploadContext.HasUploaded (c : uploadContext) (oid : String) : Bool :=
  c.uploadedOids.Contains oid

/-- Model of the value `lfs.NewUploadable` returns on success (content is
opaque; the id and name identify the unit). -/
structure Uploadable where
  Oid : String
  Name : String
deriving DecidableEq, Repr

/-- Failure cases of `lfs.NewUploadable`: a clean-pointer error (recognised
by `lfs.IsCleanPointerError`, carrying via `lfs.ErrorGetContext` the pointer
whose `Oid` regeneration actually produced), or any other error. -/
inductive MatErr where
  | cleanPointer (actualOid : String)
  | other (msg : String)
deriving DecidableEq, Repr

/-- Model of one error reported by `lfs.TransferQueue.Errors()`: its message,
the `lfs.IsFatalError` flag, and the optional `lfs.GetInnerError` cause. -/
structure TransferError where
  msg : String
  fatal : Bool
  inner : Option String
deriving DecidableEq, Repr

/-- The external collaborators of `uploader.go`, modelled as pure functions:
`lfs.ObjectExistsOfSize`, the remote store's possession answer that drives
the check queue's confirmation stream, `lfs.NewUploadable`, the transfer
queue's drained error list (a function of the units that were added), and
the global `Debugging` flag. -/
structure Env where
  ObjectExistsOfSize : String → Int → Bool
  serverHas : String → Bool
  NewUploadable : String → String → Except MatErr Uploadable
  queueErrors : List Uploadable → List TransferError
  Debugging : Bool

/-- Model of `lfs.TransferQueue` as observed by `uploader.go`: its sizing
arguments, the sizes passed to `Skip` and the units passed to `Add`,
in call order. -/
structure TransferQueue where
  numObjects : Nat
  totalSize : Int
  dryRun : Bool
  skips : List Int
  added : List Uploadable
deriving DecidableEq, Repr

def NewUploadQueue (n : Nat) (t : Int) (d : Bool) : TransferQueue :=
  ⟨n, t, d, [], []⟩

def TransferQueue.Skip (q : TransferQueue) (size : Int) : TransferQueue :=
  { q with skips := q.skips ++ [size] }

def TransferQueue.Add (q : TransferQueue) (u : Uploadable) : TransferQueue :=
  { q with added := q.added ++ [u] }

/-- The mutable locals of `prepareUpload`'s classification loop. -/
structure ClassifyState where
  uploadables : List WrappedPointer
  missingLocalObjects : List WrappedPointer
  numObjects : Nat
  totalSize : Int
  missingSize : Int
deriving DecidableEq, Repr

/-- One iteration of the classification loop in `prepareUpload`
(`uploader.go` lines 48-68). -/
def classifyStep (env : Env) (c : uploadContext) (s : ClassifyState)
    (p : WrappedPointer) : ClassifyState :=
  if c.HasUploaded p.Oid then s
  else
    let s1 : ClassifyState :=
      { s with numObjects := s.numObjects + 1, totalSize := s.totalSize + p.Size }
    if env.ObjectExistsOfSize p.Oid p.Size then
      { s1 with uploadables := s1.uploadables ++ [p] }
    else
      { s1 with missingLocalObjects := s1.missingLocalObjects ++ [p],
                missingSize := s1.missingSize + p.Size }

/-- The classification loop of `prepareUpload` over the whole candidate
list, starting from empty accumulators. -/
def classify (env : Env) (c : uploadContext) (unfiltered : List WrappedPointer) :
    ClassifyState :=
  unfiltered.foldl (classifyStep env c) ⟨[], [], 0, 0, 0⟩

/-- The oids emitted on the check queue's `Watch()` stream in `checkMissing`:
one confirmation per enqueued check task whose object the server already
has. -/
def confirmedOids (env : Env) (missing : List WrappedPointer) : List String :=
  (missing.filter (fun p => env.serverHas p.Oid)).map WrappedPointer.Oid

/-- `checkMissing` (`uploader.go` lines 90-115): returns unchanged when
`missing` is empty; otherwise the collector goroutine applies
`SetUploaded` to every oid the confirmation stream emits, and the function
returns only after `checkQueue.Wait()` and the collector's `done` signal. -/
def checkMissing (env : Env) (c : uploadContext) (missing : List WrappedPointer)
    (missingSize : Int) : uploadContext :=
  if missing.length = 0 then c
  else (confirmedOids env missing).foldl uploadContext.SetUploaded c

/-- `prepareUpload` (`uploader.go` lines 36-85): classify, reconcile the
missing objects against the server, build the upload queue sized to the
classification totals, then skip each missing object now marked handled and
append the rest to `uploadables`. -/
def prepareUpload (env : Env) (c : uploadContext)
    (unfiltered : List WrappedPointer) :
    uploadContext × TransferQueue × List WrappedPointer :=
  let s := classify env c unfiltered
  let c2 := checkMissing env c s.missingLocalObjects s.missingSize
  let q0 := NewUploadQueue s.numObjects s.totalSize c.DryRun
  let qups := s.missingLocalObjects.foldl
    (fun acc p =>
      if c2.HasUploaded p.Oid then (acc.1.Skip p.Size, acc.2)
      else (acc.1, acc.2 ++ [p]))
    (q0, s.uploadables)
  (c2, qups.1, qups.2)

/-- How a run of `upload` terminates: normal return, `os.Exit(2)` after
transfer errors, `Exit(uploadMissingErr, ...)` on a clean-pointer
materialization failure, or `ExitWithError(err)` on any other
materialization failure. -/
inductive UploadOutcome where
  | success
  | exitCode (code : Nat)
  | fatalMsg (msg : String)
  | fatalErr (msg : String)
deriving DecidableEq, Repr

/-- The Go format string `uploadMissingErr` applied to the expected oid, the
display name, and the oid regeneration actually produced. -/
def uploadMissingMsg (oid name actual : String) : String :=
  oid ++ " does not exist in .git/lfs/objects. Tried " ++ name ++
    ", which matches " ++ actual ++ "."

/-- The enqueue loop of `upload` (`uploader.go` lines 133-145): materialize
each pointer with `lfs.NewUploadable`; a clean-pointer failure exits with
the `uploadMissingErr` diagnostic, any other failure exits with the raw
error, and on success the unit is added to the queue and the oid marked
uploaded before the next pointer is examined. -/
def enqueueAll (env : Env) :
    uploadContext → TransferQueue → List WrappedPointer →
    uploadContext × TransferQueue × Option UploadOutcome
  | c, q, [] => (c, q, none)
  | c, q, p :: ps =>
    match env.NewUploadable p.Oid p.Name with
    | .error (.cleanPointer actual) =>
        (c, q, some (.fatalMsg (uploadMissingMsg p.Oid p.Name actual)))
    | .error (.other m) => (c, q, some (.fatalErr m))
    | .ok u => enqueueAll env (c.SetUploaded p.Oid) (q.Add u) ps

/-- The error-draining loop of `upload` (`uploader.go` lines 150-159): each
error produces its message when `Debugging` or `lfs.IsFatalError`; otherwise
the inner cause (when present) and then the error's own message. -/
def drain (debugging : Bool) (errs : List TransferError) : List String :=
  errs.foldl
    (fun acc e =>
      if debugging || e.fatal then acc ++ [e.msg]
      else
        match e.inner with
        | some i => acc ++ [i, e.msg]
        | none => acc ++ [e.msg])
    []

/-- One step of the dry-run loop of `upload` (`uploader.go` lines 119-126):
skip handled oids, otherwise print `push <oid> => <name>` and mark the oid
uploaded. -/
def dryRunStep (acc : uploadContext × List String) (p : WrappedPointer) :
    uploadContext × List String :=
  if acc.1.HasUploaded p.Oid then acc
  else (acc.1.SetUploaded p.Oid, acc.2 ++ ["push " ++ p.Oid ++ " => " ++ p.Name])

/-- The observable result of one `upload` call: the context it leaves
behind, the lines printed, how the call terminated, and the transfer queue
it built (`none` in dry-run mode, which builds no queue). -/
structure UploadResult where
  ctx : uploadContext
  output : List String
  outcome : UploadOutcome
  queue : Option TransferQueue
deriving DecidableEq, Repr

/-- `upload` (`uploader.go` lines 117-163): the dry-run branch prints and
marks; the real branch runs `prepareUpload`, materializes and enqueues every
returned pointer (aborting on the first failure), waits for the queue, and
drains its errors, exiting with status 2 when any were reported. -/
def upload (env : Env) (c : uploadContext) (unfiltered : List WrappedPointer) :
    UploadResult :=
  if c.DryRun then
    let r := unfiltered.foldl dryRunStep (c, [])
    ⟨r.1, r.2, .success, none⟩
  else
    let pre := prepareUpload env c unfiltered
    match enqueueAll env pre.1 pre.2.1 pre.2.2 with
    | (c2, q2, some outcome) => ⟨c2, [], outcome, some q2⟩
    | (c2, q2, none) =>
      let errs := env.queueErrors q2.added
      ⟨c2, drain env.Debugging errs,
        if errs.length > 0 then .exitCode 2 else .success, some q2⟩

/-- Lines the spec promises from a dry run: one `push <oid> => <name>` line
per input object whose oid is not already in the handled set, marking as it
goes.  Stated from the spec's words, to be compared with `upload`'s dry-run
branch. -/
def specDryRunLines (seen : StringSet) : List WrappedPointer → List String
  | [] => []
  | p :: ps =>
    if seen.Contains p.Oid then specDryRunLines seen ps
    else ("push " ++ p.Oid ++ " => " ++ p.Name) :: specDryRunLines (seen.Add p.Oid) ps

/-- Lines the spec promises for one drained error: its message alone when
fatal-flagged or in diagnostic mode, otherwise any inner cause followed by
the error's own message. -/
def reportOne (debugging : Bool) (e : TransferError) : List String :=
  if debugging || e.fatal then [e.msg]
  else
    (match e.inner with
     | some i => [i]
     | none => []) ++ [e.msg]

section Lemmas

theorem StringSet.contains_Add (s : StringSet) (o x : String) :
    ((s.Add o).Contains x = true) ↔ (x = o ∨ s.Contains x = true) := by
  unfold StringSet.Add StringSet.Contains
  by_cases h : s.elems.contains o = true
  · simp only [h, if_true]
    constructor
    · intro hx
      exact Or.inr hx
    · rintro (rfl | hx)
      · exact h
      · exact hx
  · simp only [h, if_false]
    simp [List.contains_cons]

theorem hasUploaded_SetUploaded (c : uploadContext) (o x : String) :
    ((c.SetUploaded o).HasUploaded x = true) ↔ (x = o ∨ c.HasUploaded x = true) := by
  simp only [uploadContext.SetUploaded, uploadContext.HasUploaded]
  exact StringSet.contains_Add c.uploadedOids o x

theorem dryRun_SetUploaded (c : uploadContext) (o : String) :
    (c.SetUploaded o).DryRun = c.DryRun := rfl

theorem foldl_SetUploaded_hasUploaded (l : List String) :
    ∀ (c : uploadContext) (x : String),
      ((l.foldl uploadContext.SetUploaded c).HasUploaded x = true ↔
        (c.HasUploaded x = true ∨ x ∈ l)) := by
  induction l with
  | nil => intro c x; simp
  | cons o l ih =>
    intro c x
    simp only [List.foldl_cons, ih, hasUploaded_SetUploaded, List.mem_cons]
    tauto

theorem foldl_SetUploaded_dryRun (l : List String) :
    ∀ c : uploadContext, (l.foldl uploadContext.SetUploaded c).DryRun = c.DryRun := by
  induction l with
  | nil => intro c; rfl
  | cons o l ih => intro c; simp [List.foldl_cons, ih, dryRun_SetUploaded]

theorem foldl_classifyStep (env : Env) (c : uploadContext) :
    ∀ (l : List WrappedPointer) (s : ClassifyState),
      l.foldl (classifyStep env c) s =
        ⟨s.uploadables ++
           l.filter (fun p => !c.HasUploaded p.Oid && env.ObjectExistsOfSize p.Oid p.Size),
         s.missingLocalObjects ++
           l.filter (fun p => !c.HasUploaded p.Oid && !env.ObjectExistsOfSize p.Oid p.Size),
         s.numObjects + (l.filter (fun p => !c.HasUploaded p.Oid)).length,
         s.totalSize +
           ((l.filter (fun p => !c.HasUploaded p.Oid)).map (fun p => p.Size)).sum,
         s.missingSize +
           ((l.filter (fun p => !c.HasUploaded p.Oid && !env.ObjectExistsOfSize p.Oid p.Size)).map
             (fun p => p.Size)).sum⟩ := by
  intro l
  induction l with
  | nil => intro s; simp
  | cons p l ih =>
    intro s
    simp only [List.foldl_cons, ih]
    by_cases hup : c.HasUploaded p.Oid = true
    · simp [classifyStep, hup, List.filter_cons]
    · have hup' : c.HasUploaded p.Oid = false := by
        cases h : c.HasUploaded p.Oid
        · rfl
        · exact absurd h hup
      by_cases hex : env.ObjectExistsOfSize p.Oid p.Size = true
      · simp [classifyStep, hup', hex, List.filter_cons]
        constructor <;> first
          | trivial
          | omega
      · have hex' : env.ObjectExistsOfSize p.Oid p.Size = false := by
          cases h : env.ObjectExistsOfSize p.Oid p.Size
          · rfl
          · exact absurd h hex
        simp [classifyStep, hup', hex', List.filter_cons]
        constructor <;> first
          | trivial
          | omega

/-- Characterization of `classify` on empty accumulators. -/
theorem classify_char (env : Env) (c : uploadContext) (l : List WrappedPointer) :
    classify env c l =
      ⟨l.filter (fun p => !c.HasUploaded p.Oid && env.ObjectExistsOfSize p.Oid p.Size),
       l.filter (fun p => !c.HasUploaded p.Oid && !env.ObjectExistsOfSize p.Oid p.Size),
       (l.filter (fun p => !c.HasUploaded p.Oid)).length,
       ((l.filter (fun p => !c.HasUploaded p.Oid)).map (fun p => p.Size)).sum,
       ((l.filter (fun p => !c.HasUploaded p.Oid && !env.ObjectExistsOfSize p.Oid p.Size)).map
         (fun p => p.Size)).sum⟩ := by
  unfold classify
  rw [foldl_classifyStep]
  simp

theorem checkMissing_hasUploaded (env : Env) (c : uploadContext)
    (missing : List WrappedPointer) (ms : Int) (x : String) :
    ((checkMissing env c missing ms).HasUploaded x = true ↔
      (c.HasUploaded x = true ∨ x ∈ confirmedOids env missing)) := by
  unfold checkMissing
  by_cases h : missing.length = 0
  · have hnil : missing = [] := List.length_eq_zero.mp h
    subst hnil
    simp [confirmedOids]
  · simp only [h, if_false]
    exact foldl_SetUploaded_hasUploaded _ c x

theorem checkMissing_dryRun (env : Env) (c : uploadContext)
    (missing : List WrappedPointer) (ms : Int) :
    (checkMissing env c missing ms).DryRun = c.DryRun := by
  unfold checkMissing
  by_cases h : missing.length = 0
  · simp [h]
  · simp only [h, if_false]
    exact foldl_SetUploaded_dryRun _ c

theorem foldl_skipLoop (c2 : uploadContext) :
    ∀ (l : List WrappedPointer) (q : TransferQueue) (ups : List WrappedPointer),
      l.foldl
        (fun acc p =>
          if c2.HasUploaded p.Oid then (acc.1.Skip p.Size, acc.2)
          else (acc.1, acc.2 ++ [p]))
        (q, ups) =
      ({ q with skips := q.skips ++
          (l.filter (fun p => c2.HasUploaded p.Oid)).map (fun p => p.Size) },
       ups ++ l.filter (fun p => !c2.HasUploaded p.Oid)) := by
  intro l
  induction l with
  | nil => intro q ups; simp
  | cons p l ih =>
    intro q ups
    rw [List.foldl_cons]
    by_cases h : c2.HasUploaded p.Oid = true
    · simp only [h, if_true]
      rw [ih]
      simp [TransferQueue.Skip, List.filter_cons, h]
    · have h' : c2.HasUploaded p.Oid = false := by
        cases hh : c2.HasUploaded p.Oid
        · rfl
        · exact absurd hh h
      simp only [h', Bool.false_eq_true, if_false]
      rw [ih]
      simp [List.filter_cons, h']

/-- Characterization of `prepareUpload` in terms of `classify` and
`checkMissing`. -/
theorem prepareUpload_char (env : Env) (c : uploadContext)
    (l : List WrappedPointer) :
    prepareUpload env c l =
      ((checkMissing env c (classify env c l).missingLocalObjects
          (classify env c l).missingSize),
       { numObjects := (classify env c l).numObjects,
         totalSize := (classify env c l).totalSize,
         dryRun := c.DryRun,
         skips := ((classify env c l).missingLocalObjects.filter
            (fun p => (checkMissing env c (classify env c l).missingLocalObjects
              (classify env c l).missingSize).HasUploaded p.Oid)).map (fun p => p.Size),
         added := [] },
       (classify env c l).uploadables ++
         (classify env c l).missingLocalObjects.filter
           (fun p => !(checkMissing env c (classify env c l).missingLocalObjects
             (classify env c l).missingSize).HasUploaded p.Oid)) := by
  simp only [prepareUpload]
  rw [foldl_skipLoop]
  simp [NewUploadQueue]

theorem enqueueAll_append_ok (env : Env) :
    ∀ (ps1 rest : List WrappedPointer) (c : uploadContext) (q : TransferQueue),
      (∀ p ∈ ps1, ∃ u, env.NewUploadable p.Oid p.Name = .ok u) →
      enqueueAll env c q (ps1 ++ rest) =
        enqueueAll env
          (ps1.foldl (fun a p => a.SetUploaded p.Oid) c)
          { q with added := q.added ++
              ps1.filterMap (fun p => (env.NewUploadable p.Oid p.Name).toOption) }
          rest := by
  intro ps1
  induction ps1 with
  | nil =>
    intro rest c q _
    simp
  | cons p ps ih =>
    intro rest c q hok
    obtain ⟨u, hu⟩ := hok p (List.mem_cons_self p ps)
    simp only [List.cons_append, enqueueAll, hu, List.append_eq]
    rw [ih _ _ _ (fun p' hp' => hok p' (List.mem_cons_of_mem p hp'))]
    simp [TransferQueue.Add, hu, List.filterMap_cons, Except.toOption]

theorem enqueueAll_all_ok (env : Env) (ps : List WrappedPointer)
    (c : uploadContext) (q : TransferQueue)
    (hok : ∀ p ∈ ps, ∃ u, env.NewUploadable p.Oid p.Name = .ok u) :
    enqueueAll env c q ps =
      (ps.foldl (fun a p => a.SetUploaded p.Oid) c,
       { q with added := q.added ++
           ps.filterMap (fun p => (env.NewUploadable p.Oid p.Name).toOption) },
       none) := by
  have h := enqueueAll_append_ok env ps [] c q hok
  simpa [enqueueAll] using h

theorem enqueueAll_first_error (env : Env) (ps1 : List WrappedPointer)
    (p : WrappedPointer) (ps2 : List WrappedPointer) (c : uploadContext)
    (q : TransferQueue) (e : MatErr)
    (hok : ∀ p' ∈ ps1, ∃ u, env.NewUploadable p'.Oid p'.Name = .ok u)
    (herr : env.NewUploadable p.Oid p.Name = .error e) :
    enqueueAll env c q (ps1 ++ p :: ps2) =
      (ps1.foldl (fun a p' => a.SetUploaded p'.Oid) c,
       { q with added := q.added ++
           ps1.filterMap (fun p' => (env.NewUploadable p'.Oid p'.Name).toOption) },
       some (match e with
         | .cleanPointer actual =>
             .fatalMsg (uploadMissingMsg p.Oid p.Name actual)
         | .other m => .fatalErr m)) := by
  rw [enqueueAll_append_ok env ps1 (p :: ps2) c q hok]
  cases e with
  | cleanPointer actual => simp [enqueueAll, herr]
  | other m => simp [enqueueAll, herr]

theorem drain_eq_flatMap (debugging : Bool) (errs : List TransferError) :
    drain debugging errs = errs.flatMap (reportOne debugging) := by
  have key : ∀ (es : List TransferError) (acc : List String),
      es.foldl
        (fun acc e =>
          if debugging || e.fatal then acc ++ [e.msg]
          else
            match e.inner with
            | some i => acc ++ [i, e.msg]
            | none => acc ++ [e.msg])
        acc = acc ++ es.flatMap (reportOne debugging) := by
    intro es
    induction es with
    | nil => intro acc; simp
    | cons e es ih =>
      intro acc
      rw [List.foldl_cons, ih]
      by_cases h : (debugging || e.fatal) = true
      · simp [h, reportOne]
      · have h' : (debugging || e.fatal) = false := by
          cases hh : (debugging || e.fatal)
          · rfl
          · exact absurd hh h
        cases hi : e.inner with
        | some i => simp [h', reportOne, hi]
        | none => simp [h', reportOne, hi]
  exact key errs []

theorem foldl_dryRunStep_char (l : List WrappedPointer) :
    ∀ (c : uploadContext) (acc : List String),
      (l.foldl dryRunStep (c, acc)).2 = acc ++ specDryRunLines c.uploadedOids l ∧
      (l.foldl dryRunStep (c, acc)).1.DryRun = c.DryRun ∧
      ∀ x : String,
        ((l.foldl dryRunStep (c, acc)).1.HasUploaded x = true ↔
          (c.HasUploaded x = true ∨ x ∈ l.map WrappedPointer.Oid)) := by
  induction l with
  | nil => intro c acc; simp [specDryRunLines]
  | cons p l ih =>
    intro c acc
    rw [List.foldl_cons]
    by_cases h : c.HasUploaded p.Oid = true
    · have hseen : c.uploadedOids.Contains p.Oid = true := h
      simp only [dryRunStep, h, if_true, specDryRunLines, hseen]
      obtain ⟨h1, h2, h3⟩ := ih c acc
      refine ⟨h1, h2, ?_⟩
      intro x
      rw [h3 x]
      simp only [List.map_cons, List.mem_cons]
      constructor
      · rintro (hc | hl)
        · exact Or.inl hc
        · exact Or.inr (Or.inr hl)
      · rintro (hc | rfl | hl)
        · exact Or.inl hc
        · exact Or.inl h
        · exact Or.inr hl
    · have h' : c.HasUploaded p.Oid = false := by
        cases hh : c.HasUploaded p.Oid
        · rfl
        · exact absurd hh h
      have hseen : c.uploadedOids.Contains p.Oid = false := h'
      simp only [dryRunStep, h', Bool.false_eq_true, if_false, specDryRunLines, hseen]
      obtain ⟨h1, h2, h3⟩ := ih (c.SetUploaded p.Oid) (acc ++ ["push " ++ p.Oid ++ " => " ++ p.Name])
      refine ⟨?_, ?_, ?_⟩
      · rw [h1]
        simp [uploadContext.SetUploaded]
      · rw [h2]
        rfl
      · intro x
        rw [h3 x, hasUploaded_SetUploaded]
        simp only [List.map_cons, List.mem_cons]
        tauto

theorem foldl_dryRunStep_allSeen (l : List WrappedPointer) :
    ∀ (c : uploadContext) (acc : List String),
      (∀ p ∈ l, c.HasUploaded p.Oid = true) →
      l.foldl dryRunStep (c, acc) = (c, acc) := by
  induction l with
  | nil => intro c acc _; rfl
  | cons p l ih =>
    intro c acc hall
    rw [List.foldl_cons]
    have hp := hall p (List.mem_cons_self p l)
    simp only [dryRunStep, hp, if_true]
    exact ih c acc (fun p' hp' => hall p' (List.mem_cons_of_mem p hp'))

theorem mono_SetUploaded (c : uploadContext) (o x : String)
    (h : c.HasUploaded x = true) : (c.SetUploaded o).HasUploaded x = true :=
  (hasUploaded_SetUploaded c o x).mpr (Or.inr h)

theorem mono_checkMissing (env : Env) (c : uploadContext)
    (missing : List WrappedPointer) (ms : Int) (x : String)
    (h : c.HasUploaded x = true) :
    (checkMissing env c missing ms).HasUploaded x = true :=
  (checkMissing_hasUploaded env c missing ms x).mpr (Or.inl h)

theorem mono_enqueueAll (env : Env) :
    ∀ (ps : List WrappedPointer) (c : uploadContext) (q : TransferQueue)
      (x : String), c.HasUploaded x = true →
      (enqueueAll env c q ps).1.HasUploaded x = true := by
  intro ps
  induction ps with
  | nil => intro c q x h; exact h
  | cons p ps ih =>
    intro c q x h
    simp only [enqueueAll]
    rcases hm : env.NewUploadable p.Oid p.Name with e | u
    · cases e with
      | cleanPointer actual => exact h
      | other m => exact h
    · exact ih _ _ x (mono_SetUploaded c p.Oid x h)

theorem upload_real_unfold (env : Env) (c : uploadContext)
    (l : List WrappedPointer) (hdry : c.DryRun = false) :
    upload env c l =
      (match enqueueAll env (prepareUpload env c l).1
          (prepareUpload env c l).2.1 (prepareUpload env c l).2.2 with
       | (c2, q2, some outcome) => ⟨c2, [], outcome, some q2⟩
       | (c2, q2, none) =>
         ⟨c2, drain env.Debugging (env.queueErrors q2.added),
          if (env.queueErrors q2.added).length > 0 then .exitCode 2 else .success,
          some q2⟩) := by
  simp only [upload, hdry, Bool.false_eq_true, if_false]

theorem upload_dry_unfold (env : Env) (c : uploadContext)
    (l : List WrappedPointer) (hdry : c.DryRun = true) :
    upload env c l =
      ⟨(l.foldl dryRunStep (c, [])).1, (l.foldl dryRunStep (c, [])).2,
       .success, none⟩ := by
  simp only [upload, hdry, if_true]

theorem mono_upload (env : Env) (c : uploadContext) (l : List WrappedPointer)
    (x : String) (h : c.HasUploaded x = true) :
    (upload env c l).ctx.HasUploaded x = true := by
  by_cases hdry : c.DryRun = true
  · rw [upload_dry_unfold env c l hdry]
    exact ((foldl_dryRunStep_char l c []).2.2 x).mpr (Or.inl h)
  · have hdry' : c.DryRun = false := by
      cases hh : c.DryRun
      · rfl
      · exact absurd hh hdry
    rw [upload_real_unfold env c l hdry']
    have hpre : (prepareUpload env c l).1.HasUploaded x = true := by
      rw [prepareUpload_char]
      exact mono_checkMissing env c (classify env c l).missingLocalObjects
        (classify env c l).missingSize x h
    have henq := mono_enqueueAll env (prepareUpload env c l).2.2
      (prepareUpload env c l).1 (prepareUpload env c l).2.1 x hpre
    rcases hres : enqueueAll env (prepareUpload env c l).1
        (prepareUpload env c l).2.1 (prepareUpload env c l).2.2 with ⟨c2, q2, oo⟩
    rw [hres] at henq
    cases oo <;> simpa using henq

end Lemmas

/-!
Trace model of the synchronization inside `checkMissing` (`uploader.go`
lines 102-115).  The primary task performs, in program order, the return of
`checkQueue.Wait()`, the receive on the `done` channel, and the return to
the caller; the collector goroutine performs one `SetUploaded` per oid the
`Watch()` stream emits and then sends on `done`.  An execution is any
interleaving (`Merge`) of the two program orders; the only cross-task
constraint of the Go code is the channel semantics of `done`: the send
(`collectorDone`) happens before the receive (`recvDone`).
-/

/-- Events of the `checkMissing` synchronization trace. -/
inductive Ev where
  | queueWaitDone
  | recvDone
  | ret
  | collect (oid : String)
  | collectorDone
deriving DecidableEq, Repr

/-- Program order of the primary task in `checkMissing` after the check
tasks are enqueued: `checkQueue.Wait()` returns, then `<-done`, then the
function returns. -/
def checkMainEvents : List Ev := [.queueWaitDone, .recvDone, .ret]

/-- Program order of the collector goroutine: one `collect` per oid emitted
on the confirmation stream, in stream order, then the send on `done`. -/
def collectorEvents (env : Env) (missing : List WrappedPointer) : List Ev :=
  (confirmedOids env missing).map Ev.collect ++ [.collectorDone]

/-- Interleavings of two sequences, preserving each sequence's order. -/
inductive Merge : List Ev → List Ev → List Ev → Prop where
  | nil : Merge [] [] []
  | left {l1 l2 t} (a : Ev) : Merge l1 l2 t → Merge (a :: l1) l2 (a :: t)
  | right {l1 l2 t} (a : Ev) : Merge l1 l2 t → Merge l1 (a :: l2) (a :: t)

/-- Every occurrence of `a` comes strictly before every occurrence of `b`
in the trace `t`. -/
def Precedes (t : List Ev) (a b : Ev) : Prop := ¬ ([b, a].Sublist t)

section TraceLemmas

theorem Merge.sublist_left {l1 l2 t : List Ev} (h : Merge l1 l2 t) :
    l1.Sublist t := by
  induction h with
  | nil => exact List.Sublist.refl []
  | left a _ ih => exact ih.cons₂ a
  | right a _ ih => exact ih.cons a

theorem Merge.sublist_right {l1 l2 t : List Ev} (h : Merge l1 l2 t) :
    l2.Sublist t := by
  induction h with
  | nil => exact List.Sublist.refl []
  | left a _ ih => exact ih.cons a
  | right a _ ih => exact ih.cons₂ a

theorem Merge.nil_right {l1 t : List Ev} (h : Merge l1 [] t) : t = l1 := by
  generalize hl2 : ([] : List Ev) = l2 at h
  induction h with
  | nil => rfl
  | left a h ih => rw [ih hl2]
  | right a h ih => exact absurd hl2 (by simp)

theorem barrier_tail (cs : List Ev) :
    (∀ x ∈ cs, ∃ oid, x = Ev.collect oid) →
    ∀ t, Merge [Ev.recvDone, Ev.ret] (cs ++ [Ev.collectorDone]) t →
    ¬ ([Ev.recvDone, Ev.collectorDone].Sublist t) →
    ∃ t0, t = t0 ++ [Ev.ret] ∧ Ev.ret ∉ t0 := by
  induction cs with
  | nil =>
    intro _ t hm hc
    cases hm with
    | left a hm' =>
      exfalso
      apply hc
      have hmem : Ev.collectorDone ∈ _ := hm'.sublist_right.mem
        (List.mem_cons_self Ev.collectorDone [])
      exact (List.singleton_sublist.mpr hmem).cons₂ Ev.recvDone
    | right a hm' =>
      have ht : _ = [Ev.recvDone, Ev.ret] := hm'.nil_right
      refine ⟨[Ev.collectorDone, Ev.recvDone], ?_, by simp⟩
      rw [ht]
      rfl
  | cons x cs ih =>
    intro honly t hm hc
    cases hm with
    | left a hm' =>
      exfalso
      apply hc
      have hmem : Ev.collectorDone ∈ _ := hm'.sublist_right.mem
        (by simp)
      exact (List.singleton_sublist.mpr hmem).cons₂ Ev.recvDone
    | right a hm' =>
      have hc' : ¬ ([Ev.recvDone, Ev.collectorDone].Sublist _) :=
        fun hs => hc (hs.cons x)
      obtain ⟨t0, ht0, hret⟩ := ih
        (fun y hy => honly y (List.mem_cons_of_mem x hy)) _ hm' hc'
      obtain ⟨oid, hoid⟩ := honly x (List.mem_cons_self x cs)
      refine ⟨x :: t0, by rw [ht0]; rfl, ?_⟩
      intro hmem
      rcases List.mem_cons.mp hmem with h1 | h1
      · rw [hoid] at h1
        exact Ev.noConfusion h1
      · exact hret h1

theorem barrier_full (cs : List Ev) :
    (∀ x ∈ cs, ∃ oid, x = Ev.collect oid) →
    ∀ t, Merge checkMainEvents (cs ++ [Ev.collectorDone]) t →
    ¬ ([Ev.recvDone, Ev.collectorDone].Sublist t) →
    ∃ t0, t = t0 ++ [Ev.ret] ∧ Ev.ret ∉ t0 := by
  induction cs with
  | nil =>
    intro honly t hm hc
    cases hm with
    | left a hm' =>
      have hc' : ¬ ([Ev.recvDone, Ev.collectorDone].Sublist _) :=
        fun hs => hc (hs.cons Ev.queueWaitDone)
      obtain ⟨t0, ht0, hret⟩ := barrier_tail [] (by simp) _ hm' hc'
      exact ⟨Ev.queueWaitDone :: t0, by rw [ht0]; rfl, by
        intro hmem
        rcases List.mem_cons.mp hmem with h1 | h1
        · exact Ev.noConfusion h1
        · exact hret h1⟩
    | right a hm' =>
      have ht : _ = checkMainEvents := hm'.nil_right
      refine ⟨[Ev.collectorDone, Ev.queueWaitDone, Ev.recvDone], ?_, by simp⟩
      rw [ht]
      rfl
  | cons x cs ih =>
    intro honly t hm hc
    cases hm with
    | left a hm' =>
      have hc' : ¬ ([Ev.recvDone, Ev.collectorDone].Sublist _) :=
        fun hs => hc (hs.cons Ev.queueWaitDone)
      obtain ⟨t0, ht0, hret⟩ := barrier_tail (x :: cs) honly _ hm' hc'
      exact ⟨Ev.queueWaitDone :: t0, by rw [ht0]; rfl, by
        intro hmem
        rcases List.mem_cons.mp hmem with h1 | h1
        · exact Ev.noConfusion h1
        · exact hret h1⟩
    | right a hm' =>
      have hc' : ¬ ([Ev.recvDone, Ev.collectorDone].Sublist _) :=
        fun hs => hc (hs.cons x)
      obtain ⟨t0, ht0, hret⟩ := ih
        (fun y hy => honly y (List.mem_cons_of_mem x hy)) _ hm' hc'
      obtain ⟨oid, hoid⟩ := honly x (List.mem_cons_self x cs)
      refine ⟨x :: t0, by rw [ht0]; rfl, ?_⟩
      intro hmem
      rcases List.mem_cons.mp hmem with h1 | h1
      · rw [hoid] at h1
        exact Ev.noConfusion h1
      · exact hret h1

end TraceLemmas

/-! Concrete fixtures used by counterexamples and witnesses. -/

def pA : WrappedPointer := ⟨"a", "f.txt", 1⟩

def pB : WrappedPointer := ⟨"b", "g.txt", 2⟩

/-- Environment where every object exists locally, the server has nothing,
materialization always succeeds, and the queue reports no errors. -/
def envAll : Env :=
  ⟨fun _ _ => true, fun _ => false, fun oid name => .ok ⟨oid, name⟩,
   fun _ => [], false⟩

/-- Environment where the server has everything and nothing exists
locally. -/
def envServer : Env :=
  ⟨fun _ _ => false, fun _ => true, fun oid name => .ok ⟨oid, name⟩,
   fun _ => [], false⟩

/-- Environment where materializing oid `b` fails with a clean-pointer
error whose regenerated pointer has oid `c`. -/
def envCleanFail : Env :=
  ⟨fun _ _ => true, fun _ => false,
   fun oid name => if oid == "b" then .error (.cleanPointer "c") else .ok ⟨oid, name⟩,
   fun _ => [], false⟩

def errFatal : TransferError := ⟨"boom", true, none⟩

def errSoft : TransferError := ⟨"soft", false, some "cause"⟩

/-- Environment whose transfer queue reports one fatal and one non-fatal
error after draining. -/
def envErrs : Env :=
  ⟨fun _ _ => true, fun _ => false, fun oid name => .ok ⟨oid, name⟩,
   fun _ => [errFatal, errSoft], false⟩

def ctxReal : uploadContext := newUploadContext false

def ctxDry : uploadContext := newUploadContext true

/-- Context of a real-mode session in which oid `a` was already handled. -/
def ctxA : uploadContext := (newUploadContext false).SetUploaded "a"

/-- The context after reconciliation in `prepareUpload`: `checkMissing`
applied to the classification's missing objects. -/
def reconCtx (env : Env) (c : uploadContext) (l : List WrappedPointer) :
    uploadContext :=
  checkMissing env c (classify env c l).missingLocalObjects
    (classify env c l).missingSize

/-! Claim theorems. -/

/-- C2: after `checkMissing` returns, an oid is in the dedup set exactly
when it was there before or the confirmation stream emitted it: every
confirmed oid satisfies `HasUploaded`, and reconciliation alone marks no
oid the stream did not emit. -/
theorem checkMissing_marks_exactly_confirmed (env : Env) (c : uploadContext)
    (missing : List WrappedPointer) (ms : Int) (oid : String) :
    ((checkMissing env c missing ms).HasUploaded oid = true ↔
      (c.HasUploaded oid = true ∨ oid ∈ confirmedOids env missing)) :=
  checkMissing_hasUploaded env c missing ms oid

theorem missingSize_le_totalSize (env : Env) (c : uploadContext)
    (l : List WrappedPointer) (h : ∀ p ∈ l, 0 ≤ p.Size) :
    (classify env c l).missingSize ≤ (classify env c l).totalSize := by
  rw [classify_char]
  have hfil : l.filter (fun p => !c.HasUploaded p.Oid &&
      !env.ObjectExistsOfSize p.Oid p.Size) =
      (l.filter (fun p => !c.HasUploaded p.Oid)).filter
        (fun p => !env.ObjectExistsOfSize p.Oid p.Size) := by
    rw [List.filter_filter]
    apply List.filter_congr
    intro a _
    rw [Bool.and_comm]
  have hsub : (l.filter (fun p => !c.HasUploaded p.Oid &&
      !env.ObjectExistsOfSize p.Oid p.Size)).Sublist
      (l.filter (fun p => !c.HasUploaded p.Oid)) := by
    rw [hfil]
    exact List.filter_sublist _
  apply List.Sublist.sum_le_sum (hsub.map (fun p => p.Size))
  intro a ha
  obtain ⟨p, hp, rfl⟩ := List.mem_map.mp ha
  exact h p (List.mem_filter.mp hp).1

/-- C5: `totalSize` equals the sum of sizes over candidates not skipped as
already handled, `missingSize ≤ totalSize` (sizes are byte counts, hence
nonnegative), and the transfer queue is constructed with exactly the
classification's `objectCount` and `totalSize`. -/
theorem classify_totals_queue_sizing (env : Env) (c : uploadContext)
    (l : List WrappedPointer) (h : ∀ p ∈ l, 0 ≤ p.Size) :
    (classify env c l).totalSize =
        ((l.filter (fun p => !c.HasUploaded p.Oid)).map (fun p => p.Size)).sum ∧
      (classify env c l).missingSize ≤ (classify env c l).totalSize ∧
      (prepareUpload env c l).2.1.numObjects = (classify env c l).numObjects ∧
      (prepareUpload env c l).2.1.totalSize = (classify env c l).totalSize := by
  refine ⟨?_, missingSize_le_totalSize env c l h, ?_, ?_⟩
  · rw [classify_char]
  · rw [prepareUpload_char]
  · rw [prepareUpload_char]

/-- Witness for C5 at a concrete input. -/
theorem classify_totals_queue_sizing_witness :
    (classify envAll ctxReal [pA, pB]).totalSize =
        (([pA, pB].filter (fun p => !ctxReal.HasUploaded p.Oid)).map
          (fun p => p.Size)).sum ∧
      (classify envAll ctxReal [pA, pB]).missingSize ≤
        (classify envAll ctxReal [pA, pB]).totalSize ∧
      (prepareUpload envAll ctxReal [pA, pB]).2.1.numObjects =
        (classify envAll ctxReal [pA, pB]).numObjects ∧
      (prepareUpload envAll ctxReal [pA, pB]).2.1.totalSize =
        (classify envAll ctxReal [pA, pB]).totalSize :=
  classify_totals_queue_sizing envAll ctxReal [pA, pB] (by decide)

/-- C4: the skip calls of `prepareUpload` are exactly one `Skip` with the
object's size per missing object marked handled after reconciliation, in
order; the returned working list is the locally-present uploadables
followed by the still-unmarked missing objects; and no missing object
marked handled appears in the working list. -/
theorem prepareUpload_skip_accounting (env : Env) (c : uploadContext)
    (l : List WrappedPointer) :
    (prepareUpload env c l).2.1.skips =
        ((classify env c l).missingLocalObjects.filter
          (fun p => (reconCtx env c l).HasUploaded p.Oid)).map (fun p => p.Size) ∧
      (prepareUpload env c l).2.2 =
        (classify env c l).uploadables ++
          (classify env c l).missingLocalObjects.filter
            (fun p => !(reconCtx env c l).HasUploaded p.Oid) ∧
      ∀ p ∈ (classify env c l).missingLocalObjects,
        (reconCtx env c l).HasUploaded p.Oid = true →
          p ∉ (prepareUpload env c l).2.2 := by
  refine ⟨?_, ?_, ?_⟩
  · rw [prepareUpload_char]
    rfl
  · rw [prepareUpload_char]
    rfl
  · intro p hp hrec hmem
    rw [prepareUpload_char] at hmem
    rcases List.mem_append.mp hmem with hup | hmiss
    · rw [classify_char] at hp hup
      have h1 := (List.mem_filter.mp hp).2
      have h2 := (List.mem_filter.mp hup).2
      simp only [Bool.and_eq_true, Bool.not_eq_true'] at h1 h2
      rw [h1.2] at h2
      exact Bool.noConfusion h2.2
    · have h3 := (List.mem_filter.mp hmiss).2
      rw [show (checkMissing env c (classify env c l).missingLocalObjects
            (classify env c l).missingSize) = reconCtx env c l from rfl, hrec] at h3
      exact Bool.noConfusion h3

/-- Witness for C4 at a concrete input: `pB` is missing locally, confirmed
by the server, hence skipped with size 2 and absent from the working
list. -/
theorem prepareUpload_skip_accounting_witness :
    (prepareUpload envServer ctxReal [pB]).2.1.skips =
        (((classify envServer ctxReal [pB]).missingLocalObjects.filter
          (fun p => (reconCtx envServer ctxReal [pB]).HasUploaded p.Oid)).map
            (fun p => p.Size)) ∧
      pB ∉ (prepareUpload envServer ctxReal [pB]).2.2 := by
  refine ⟨(prepareUpload_skip_accounting envServer ctxReal [pB]).1, ?_⟩
  exact (prepareUpload_skip_accounting envServer ctxReal [pB]).2.2 pB
    (by decide) (by decide)

/-- C9: the dedup set is monotone: `SetUploaded`, `checkMissing`,
`prepareUpload` and `upload` (either mode) never remove an oid, so once
`HasUploaded` holds it holds after any of them. -/
theorem uploadedOids_monotone (env : Env) (c : uploadContext)
    (l missing : List WrappedPointer) (ms : Int) (o x : String)
    (h : c.HasUploaded x = true) :
    (c.SetUploaded o).HasUploaded x = true ∧
      (checkMissing env c missing ms).HasUploaded x = true ∧
      (prepareUpload env c l).1.HasUploaded x = true ∧
      (upload env c l).ctx.HasUploaded x = true := by
  refine ⟨mono_SetUploaded c o x h, mono_checkMissing env c missing ms x h,
    ?_, mono_upload env c l x h⟩
  rw [prepareUpload_char]
  exact mono_checkMissing env c (classify env c l).missingLocalObjects
    (classify env c l).missingSize x h

/-- Witness for C9 at a concrete input. -/
theorem uploadedOids_monotone_witness :
    (ctxA.SetUploaded "b").HasUploaded "a" = true ∧
      (checkMissing envAll ctxA [pB] 2).HasUploaded "a" = true ∧
      (prepareUpload envAll ctxA [pA, pB]).1.HasUploaded "a" = true ∧
      (upload envAll ctxA [pA, pB]).ctx.HasUploaded "a" = true :=
  uploadedOids_monotone envAll ctxA [pA, pB] [pB] 2 "b" "a" (by decide)

/-- C1 counterexample: in real mode the candidate list `[pA, pA]` (the same
oid twice, not previously handled) yields `objectCount = 2` — the second
occurrence is counted, not deduped — and the same oid's unit is enqueued
twice into the transfer queue within one batch. -/
theorem upload_duplicate_oid_counterexample :
    (upload envAll ctxReal [pA, pA]).queue.map TransferQueue.numObjects =
        some 2 ∧
      (upload envAll ctxReal [pA, pA]).queue.map TransferQueue.added =
        some [⟨"a", "f.txt"⟩, ⟨"a", "f.txt"⟩] := by
  constructor
  · rfl
  · rfl

/-- C1 amended: dedup in a real-mode batch is only against the dedup set as
it stands when classification examines the candidate — ids handled before
the call contribute nothing to `objectCount`/`totalSize` and never reach the
working upload list, but an id not already in the set is counted (and
enqueued) once per occurrence within the same list. -/
theorem classify_dedup_initial_only (env : Env) (c : uploadContext)
    (l : List WrappedPointer) :
    (classify env c l).numObjects =
        (l.filter (fun p => !c.HasUploaded p.Oid)).length ∧
      (classify env c l).totalSize =
        ((l.filter (fun p => !c.HasUploaded p.Oid)).map (fun p => p.Size)).sum ∧
      ∀ p ∈ l, c.HasUploaded p.Oid = true →
        p ∉ (prepareUpload env c l).2.2 := by
  refine ⟨?_, ?_, ?_⟩
  · rw [classify_char]
  · rw [classify_char]
  · intro p _ hup hmem
    rw [prepareUpload_char] at hmem
    rcases List.mem_append.mp hmem with hin | hin
    · rw [classify_char] at hin
      have h2 := (List.mem_filter.mp hin).2
      simp only [Bool.and_eq_true, Bool.not_eq_true'] at h2
      rw [hup] at h2
      exact Bool.noConfusion h2.1
    · have h2 := (List.mem_filter.mp hin).1
      rw [classify_char] at h2
      have h3 := (List.mem_filter.mp h2).2
      simp only [Bool.and_eq_true, Bool.not_eq_true'] at h3
      rw [hup] at h3
      exact Bool.noConfusion h3.1

/-- Witness for the amended C1 at a concrete input: with oid `a` already
handled, `[pA, pB]` classifies to a single counted object and `pA` is not
in the working list. -/
theorem classify_dedup_initial_only_witness :
    (classify envAll ctxA [pA, pB]).numObjects = 1 ∧
      pA ∉ (prepareUpload envAll ctxA [pA, pB]).2.2 := by
  constructor
  · rw [(classify_dedup_initial_only envAll ctxA [pA, pB]).1]
    rfl
  · exact (classify_dedup_initial_only envAll ctxA [pA, pB]).2.2 pA
      (by decide) (by decide)

/-- C6: in dry-run mode `upload` is independent of every external
collaborator (local cache, remote check, materialization, queue errors),
builds no transfer queue, terminates normally, prints exactly the spec's
dry-run lines, and marks exactly the input oids handled. -/
theorem upload_dryRun_frame (env env2 : Env) (c : uploadContext)
    (l : List WrappedPointer) (hdry : c.DryRun = true) :
    upload env c l = upload env2 c l ∧
      (upload env c l).queue = none ∧
      (upload env c l).outcome = .success ∧
      (upload env c l).output = specDryRunLines c.uploadedOids l ∧
      ∀ x : String,
        ((upload env c l).ctx.HasUploaded x = true ↔
          (c.HasUploaded x = true ∨ x ∈ l.map WrappedPointer.Oid)) := by
  rw [upload_dry_unfold env c l hdry, upload_dry_unfold env2 c l hdry]
  obtain ⟨h1, _, h3⟩ := foldl_dryRunStep_char l c []
  exact ⟨rfl, rfl, rfl, by simpa using h1, h3⟩

/-- Witness for C6 at a concrete input (note the duplicate: dry-run marks
as it goes, so `pA` is printed once). -/
theorem upload_dryRun_frame_witness :
    upload envAll ctxDry [pA, pA, pB] = upload envErrs ctxDry [pA, pA, pB] ∧
      (upload envAll ctxDry [pA, pA, pB]).queue = none ∧
      (upload envAll ctxDry [pA, pA, pB]).outcome = .success ∧
      (upload envAll ctxDry [pA, pA, pB]).output =
        specDryRunLines ctxDry.uploadedOids [pA, pA, pB] ∧
      ∀ x : String,
        ((upload envAll ctxDry [pA, pA, pB]).ctx.HasUploaded x = true ↔
          (ctxDry.HasUploaded x = true ∨
            x ∈ [pA, pA, pB].map WrappedPointer.Oid)) :=
  upload_dryRun_frame envAll envErrs ctxDry [pA, pA, pB] rfl

/-- C10: a dry run marks every oid of its list handled, so an immediately
following dry run over the same list (or any list of oids drawn from it)
prints nothing and leaves the context unchanged. -/
theorem upload_dryRun_idempotent (env env2 : Env) (c : uploadContext)
    (l l2 : List WrappedPointer) (hdry : c.DryRun = true)
    (hsub : ∀ p ∈ l2, p.Oid ∈ l.map WrappedPointer.Oid) :
    (∀ p ∈ l, (upload env c l).ctx.HasUploaded p.Oid = true) ∧
      upload env2 (upload env c l).ctx l2 =
        ⟨(upload env c l).ctx, [], .success, none⟩ := by
  obtain ⟨_, h2, h3⟩ := foldl_dryRunStep_char l c []
  have hctx : (upload env c l).ctx = (l.foldl dryRunStep (c, [])).1 := by
    rw [upload_dry_unfold env c l hdry]
  have hmarked : ∀ p ∈ l, (upload env c l).ctx.HasUploaded p.Oid = true := by
    intro p hp
    rw [hctx]
    exact (h3 p.Oid).mpr (Or.inr (List.mem_map.mpr ⟨p, hp, rfl⟩))
  refine ⟨hmarked, ?_⟩
  have hdry1 : (upload env c l).ctx.DryRun = true := by
    rw [hctx, h2]
    exact hdry
  rw [upload_dry_unfold env2 (upload env c l).ctx l2 hdry1]
  have hall : ∀ p ∈ l2, (upload env c l).ctx.HasUploaded p.Oid = true := by
    intro p hp
    rw [hctx]
    exact (h3 p.Oid).mpr (Or.inr (hsub p hp))
  rw [foldl_dryRunStep_allSeen l2 (upload env c l).ctx [] hall]

/-- Witness for C10 at a concrete input. -/
theorem upload_dryRun_idempotent_witness :
    (∀ p ∈ [pA, pB], (upload envAll ctxDry [pA, pB]).ctx.HasUploaded p.Oid = true) ∧
      upload envErrs (upload envAll ctxDry [pA, pB]).ctx [pB, pA] =
        ⟨(upload envAll ctxDry [pA, pB]).ctx, [], .success, none⟩ :=
  upload_dryRun_idempotent envAll envErrs ctxDry [pA, pB] [pB, pA] rfl (by decide)

/-- C7: in real mode the first materialization failure aborts the whole
batch: nothing after the failing object is enqueued, a clean-pointer
failure exits with the `uploadMissingErr` diagnostic naming the expected
oid, the display name and the oid regeneration produced, and any other
failure exits with the raw error. -/
theorem upload_materialize_failure_aborts (env : Env) (c : uploadContext)
    (l ps1 ps2 : List WrappedPointer) (p : WrappedPointer) (e : MatErr)
    (hdry : c.DryRun = false)
    (hsplit : (prepareUpload env c l).2.2 = ps1 ++ p :: ps2)
    (hok : ∀ p' ∈ ps1, ∃ u, env.NewUploadable p'.Oid p'.Name = .ok u)
    (herr : env.NewUploadable p.Oid p.Name = .error e) :
    (upload env c l).outcome =
        (match e with
         | .cleanPointer actual =>
             .fatalMsg (p.Oid ++ " does not exist in .git/lfs/objects. Tried " ++
               p.Name ++ ", which matches " ++ actual ++ ".")
         | .other m => .fatalErr m) ∧
      (upload env c l).queue.map TransferQueue.added =
        some (ps1.filterMap (fun p' => (env.NewUploadable p'.Oid p'.Name).toOption)) ∧
      (upload env c l).output = [] := by
  have hadded : (prepareUpload env c l).2.1.added = [] := by
    rw [prepareUpload_char]
  rw [upload_real_unfold env c l hdry, hsplit,
    enqueueAll_first_error env ps1 p ps2 _ _ e hok herr]
  cases e with
  | cleanPointer actual => simp [uploadMissingMsg, hadded]
  | other m => simp [hadded]

/-- Witness for C7 at a concrete input: materializing `pB` fails with a
clean pointer whose regenerated oid is `c`. -/
theorem upload_materialize_failure_aborts_witness :
    (upload envCleanFail ctxReal [pB]).outcome =
        .fatalMsg ("b" ++ " does not exist in .git/lfs/objects. Tried " ++
          "g.txt" ++ ", which matches " ++ "c" ++ ".") ∧
      (upload envCleanFail ctxReal [pB]).queue.map TransferQueue.added =
        some ([].filterMap
          (fun p' : WrappedPointer =>
            (envCleanFail.NewUploadable p'.Oid p'.Name).toOption)) ∧
      (upload envCleanFail ctxReal [pB]).output = [] :=
  upload_materialize_failure_aborts envCleanFail ctxReal [pB] [] [] pB
    (.cleanPointer "c") rfl rfl (by simp) rfl

/-- C8: in real mode with every working-list object materializing, `upload`
drains and reports every queue error in order (fatal and non-fatal alike;
a non-fatal error reports its inner cause and then its own message), and
the disposition is exit status 2 exactly when the drained error list is
non-empty, success exactly when it is empty. -/
theorem upload_error_drain_disposition (env : Env) (c : uploadContext)
    (l : List WrappedPointer) (hdry : c.DryRun = false)
    (hok : ∀ p ∈ (prepareUpload env c l).2.2,
      ∃ u, env.NewUploadable p.Oid p.Name = .ok u) :
    (upload env c l).output =
        (env.queueErrors ((prepareUpload env c l).2.2.filterMap
          (fun p => (env.NewUploadable p.Oid p.Name).toOption))).flatMap
            (reportOne env.Debugging) ∧
      ((upload env c l).outcome = .exitCode 2 ↔
        env.queueErrors ((prepareUpload env c l).2.2.filterMap
          (fun p => (env.NewUploadable p.Oid p.Name).toOption)) ≠ []) ∧
      ((upload env c l).outcome = .success ↔
        env.queueErrors ((prepareUpload env c l).2.2.filterMap
          (fun p => (env.NewUploadable p.Oid p.Name).toOption)) = []) := by
  have hadded : (prepareUpload env c l).2.1.added = [] := by
    rw [prepareUpload_char]
  rw [upload_real_unfold env c l hdry,
    enqueueAll_all_ok env (prepareUpload env c l).2.2 (prepareUpload env c l).1
      (prepareUpload env c l).2.1 hok]
  simp only [hadded, List.nil_append]
  rcases herrs : env.queueErrors ((prepareUpload env c l).2.2.filterMap
      (fun p => (env.NewUploadable p.Oid p.Name).toOption)) with _ | ⟨e, es⟩
  · simp [drain_eq_flatMap, herrs]
  · simp [drain_eq_flatMap, herrs]

/-- Witness for C8 at a concrete input: one fatal and one non-fatal error
are both drained and the disposition is exit status 2. -/
theorem upload_error_drain_disposition_witness :
    (upload envErrs ctxReal [pA]).output =
        (envErrs.queueErrors ((prepareUpload envErrs ctxReal [pA]).2.2.filterMap
          (fun p => (envErrs.NewUploadable p.Oid p.Name).toOption))).flatMap
            (reportOne envErrs.Debugging) ∧
      ((upload envErrs ctxReal [pA]).outcome = .exitCode 2 ↔
        envErrs.queueErrors ((prepareUpload envErrs ctxReal [pA]).2.2.filterMap
          (fun p => (envErrs.NewUploadable p.Oid p.Name).toOption)) ≠ []) ∧
      ((upload envErrs ctxReal [pA]).outcome = .success ↔
        envErrs.queueErrors ((prepareUpload envErrs ctxReal [pA]).2.2.filterMap
          (fun p => (envErrs.NewUploadable p.Oid p.Name).toOption)) = []) :=
  upload_error_drain_disposition envErrs ctxReal [pA] rfl
    (by
      intro p hp
      exact ⟨⟨p.Oid, p.Name⟩, rfl⟩)

/-- C3: in every interleaving of the primary task and the collector task of
`checkMissing` consistent with the program orders and the `done`-channel
semantics (the collector's send precedes the primary task's receive), the
return to the caller is the final event: `checkQueue.Wait()` has returned,
every confirmed oid has been collected (and hence marked handled), and the
collector has finished, strictly before `checkMissing` returns — so no
decision in `prepareUpload` that reads reconciliation state can precede
the barrier. -/
theorem checkMissing_barrier (env : Env) (missing : List WrappedPointer)
    (t : List Ev)
    (hm : Merge checkMainEvents (collectorEvents env missing) t)
    (hchan : Precedes t Ev.collectorDone Ev.recvDone) :
    ∃ t0, t = t0 ++ [Ev.ret] ∧ Ev.ret ∉ t0 ∧
      Ev.queueWaitDone ∈ t0 ∧ Ev.collectorDone ∈ t0 ∧
      ∀ oid ∈ confirmedOids env missing, Ev.collect oid ∈ t0 := by
  have honly : ∀ x ∈ (confirmedOids env missing).map Ev.collect,
      ∃ oid, x = Ev.collect oid := by
    intro x hx
    obtain ⟨oid, _, rfl⟩ := List.mem_map.mp hx
    exact ⟨oid, rfl⟩
  obtain ⟨t0, ht0, hret⟩ :=
    barrier_full ((confirmedOids env missing).map Ev.collect) honly t hm hchan
  have hmem_t0 : ∀ x : Ev, x ∈ t → x ≠ Ev.ret → x ∈ t0 := by
    intro x hx hne
    rw [ht0] at hx
    rcases List.mem_append.mp hx with h1 | h1
    · exact h1
    · exact absurd (List.mem_singleton.mp h1) hne
  refine ⟨t0, ht0, hret, ?_, ?_, ?_⟩
  · exact hmem_t0 Ev.queueWaitDone
      (hm.sublist_left.mem (by simp [checkMainEvents])) (by simp)
  · exact hmem_t0 Ev.collectorDone
      (hm.sublist_right.mem (by simp [collectorEvents])) (by simp)
  · intro oid hoid
    refine hmem_t0 (Ev.collect oid) ?_ (by simp)
    have hin : Ev.collect oid ∈ (confirmedOids env missing).map Ev.collect :=
      List.mem_map.mpr ⟨oid, hoid, rfl⟩
    exact hm.sublist_right.mem (List.mem_append.mpr (Or.inl hin))

/-- Witness for C3 at a concrete trace: the server confirms `pB`, and the
trace interleaves the collector's events before the receive and the
return. -/
theorem checkMissing_barrier_witness :
    ∃ t0, [Ev.queueWaitDone, Ev.collect "b", Ev.collectorDone,
        Ev.recvDone, Ev.ret] = t0 ++ [Ev.ret] ∧ Ev.ret ∉ t0 ∧
      Ev.queueWaitDone ∈ t0 ∧ Ev.collectorDone ∈ t0 ∧
      ∀ oid ∈ confirmedOids envServer [pB], Ev.collect oid ∈ t0 :=
  checkMissing_barrier envServer [pB]
    [Ev.queueWaitDone, Ev.collect "b", Ev.collectorDone, Ev.recvDone, Ev.ret]
    (show Merge [Ev.queueWaitDone, Ev.recvDone, Ev.ret]
        [Ev.collect "b", Ev.collectorDone]
        [Ev.queueWaitDone, Ev.collect "b", Ev.collectorDone, Ev.recvDone,
          Ev.ret] from
      Merge.left _ (Merge.right _ (Merge.right _ (Merge.left _
        (Merge.left _ Merge.nil)))))
    (show ¬ ([Ev.recvDone, Ev.collectorDone].Sublist
        [Ev.queueWaitDone, Ev.collect "b", Ev.collectorDone, Ev.recvDone,
          Ev.ret]) by decide)

end GitLfs
